import Mathlib

/-!
Verification of the picolibc syscall shim
(`sys/picolibc_syscalls_default/syscalls.c`).

The file embeds the shim shallowly: the global output buffer
`picolibc_stdout` (a 64-byte array), its fill count
`picolibc_stdout_queued`, and the interactions with the character channel
driver (`stdio_write` / `stdio_read`) become an explicit state record
`BufState` threaded through the operations.  Channel interactions are
recorded in an event trace so that ordering claims ("no bytes reach the
channel before a flush", "the read is issued after the flush") are
observable.  The `_exit` path is embedded as a small-step machine over its
three statements, and the mutex discipline of `picolibc_put` /
`picolibc_flush` / `picolibc_get` is embedded as per-operation sequences
of atomic actions with lock/unlock events.
-/

set_option autoImplicit false

namespace PicolibcSyscalls

/-- Events observed by the character channel driver (stdio): a call
`stdio_write(data, count)` carrying the byte sequence at `data` and the
count, or a call `stdio_read(buf, count)` carrying the requested count. -/
inductive Event where
  | ewrite (data : List Nat) (count : Nat) : Event
  | eread (count : Nat) : Event
deriving DecidableEq, Repr

/-- Bytes a channel event puts on the wire: a write emits the first
`count` bytes of `data`; a read emits nothing. -/
def Event.outBytes : Event → List Nat
  | Event.ewrite data count => data.take count
  | Event.eread _ => []

/-- Source constant `PICOLIBC_STDOUT_BUFSIZE` (64). -/
def PICOLIBC_STDOUT_BUFSIZE : Nat := 64

/-- The mutable state of the shim: the 64-byte array `picolibc_stdout`,
the count `picolibc_stdout_queued`, the trace of channel-driver calls
issued so far, and the bytes still pending on the channel's input side. -/
structure BufState where
  picolibc_stdout : List Nat
  picolibc_stdout_queued : Nat
  trace : List Event
  input : List Nat
deriving DecidableEq, Repr

/-- Channel driver call `stdio_write(data, count)`: records the write on
the trace and reports `count` bytes written (the driver blocks until all
bytes are out). -/
def stdio_write (data : List Nat) (count : Nat) (s : BufState) : BufState × Int :=
  ({ s with trace := s.trace ++ [Event.ewrite data count] }, (count : Int))

/-- Channel driver call `stdio_read(buf, count)`: records the read on the
trace, consumes `count` bytes of pending input and returns them. -/
def stdio_read (count : Nat) (s : BufState) : BufState × List Nat :=
  ({ s with trace := s.trace ++ [Event.eread count], input := s.input.drop count },
   s.input.take count)

/-- Source `_picolibc_flush`: if `picolibc_stdout_queued` is non-zero,
calls `stdio_write(picolibc_stdout, picolibc_stdout_queued)` and resets
the count to 0; otherwise does nothing. -/
def _picolibc_flush (s : BufState) : BufState :=
  if s.picolibc_stdout_queued ≠ 0 then
    { (stdio_write s.picolibc_stdout s.picolibc_stdout_queued s).1 with
        picolibc_stdout_queued := 0 }
  else s

/-- Source `picolibc_put`: stores `c` at index `picolibc_stdout_queued`
and increments the count; if the count reached `PICOLIBC_STDOUT_BUFSIZE`
or `c` is a line feed (10), runs `_picolibc_flush`; returns 1.  The lock
and unlock of `picolibc_put_mutex` surround the whole body; the
sequential model makes them implicit (see the action-trace model below
for the lock discipline itself). -/
def picolibc_put (c : Nat) (s : BufState) : BufState × Int :=
  let s1 : BufState :=
    { s with
        picolibc_stdout := s.picolibc_stdout.set s.picolibc_stdout_queued c,
        picolibc_stdout_queued := s.picolibc_stdout_queued + 1 }
  let s2 : BufState :=
    if s1.picolibc_stdout_queued = PICOLIBC_STDOUT_BUFSIZE ∨ c = 10 then
      _picolibc_flush s1
    else s1
  (s2, 1)

/-- Source `picolibc_flush`: runs `_picolibc_flush` under the mutex and
returns 0. -/
def picolibc_flush (s : BufState) : BufState × Int :=
  (_picolibc_flush s, 0)

/-- Source `picolibc_get`: calls `picolibc_flush`, then
`stdio_read(&c, 1)` with `c` initialised to 0, and returns `c`. -/
def picolibc_get (s : BufState) : BufState × Nat :=
  let s1 := (picolibc_flush s).1
  let r := stdio_read 1 s1
  (r.1, r.2.headD 0)

/-- Source `write(fd, data, count)`: discards `fd` and forwards `data`
and `count` to `stdio_write`, returning its result. -/
def write (fd : Int) (data : List Nat) (count : Nat) (s : BufState) : BufState × Int :=
  stdio_write data count s

/-- Errno values set by the shim (kept symbolic; the numeric values come
from the libc headers). -/
inductive Errno where
  | ENODEV
  | ESRCH
  | ENOSYS
deriving DecidableEq, Repr

/-- Source `close(fd)`: ignores `fd`, sets `errno = ENODEV`, returns -1.
The pair is (return value, errno set). -/
def close (fd : Int) : Int × Errno :=
  (-1, Errno.ENODEV)

/-- Source `kill(pid, sig)`: ignores both arguments, sets
`errno = ESRCH`, returns -1. -/
def kill (pid : Int) (sig : Int) : Int × Errno :=
  (-1, Errno.ESRCH)

/-- The `struct tms` record a caller passes to `times`. -/
structure Tms where
  tms_utime : Int
  tms_stime : Int
  tms_cutime : Int
  tms_cstime : Int
deriving DecidableEq, Repr

/-- Source `times(ptms)`: ignores `ptms` (never writes through it), sets
`errno = ENOSYS`, returns -1.  The triple is (return value, errno set,
the record at `ptms` after the call). -/
def times (ptms : Tms) : Int × Errno × Tms :=
  (-1, Errno.ENOSYS, ptms)

/-- Live contents of the output buffer: the first
`picolibc_stdout_queued` bytes of `picolibc_stdout`. -/
def queuedBytes (s : BufState) : List Nat :=
  s.picolibc_stdout.take s.picolibc_stdout_queued

/-- Bytes a trace has put on the wire, in order. -/
def chanOutT (t : List Event) : List Nat :=
  (t.map Event.outBytes).flatten

/-- Bytes the channel has received from a state's trace. -/
def chanOut (s : BufState) : List Nat :=
  chanOutT s.trace

/-- State at startup: the static array is zeroed, the count is 0, no
channel call has happened; `inp` is the channel's future input. -/
def initState (inp : List Nat) : BufState :=
  { picolibc_stdout := List.replicate PICOLIBC_STDOUT_BUFSIZE 0,
    picolibc_stdout_queued := 0,
    trace := [],
    input := inp }

/-- Runs a sequence of `picolibc_put` calls, one per byte. -/
def runPuts : List Nat → BufState → BufState
  | [], s => s
  | c :: cs, s => runPuts cs (picolibc_put c s).1

/-- The state invariant the shim maintains: the array has its declared
size and the count is strictly below it (so the next store is in
bounds). -/
def Inv (s : BufState) : Prop :=
  s.picolibc_stdout.length = PICOLIBC_STDOUT_BUFSIZE ∧
  s.picolibc_stdout_queued < PICOLIBC_STDOUT_BUFSIZE

/-- Observable actions of the `_exit` path: the `LOG_INFO` call with the
exit code, and the `pm_off()` call. -/
inductive ExitAction where
  | log_exit (n : Int) : ExitAction
  | pm_off : ExitAction
deriving DecidableEq, Repr

/-- Program points of the `_exit` body: at the `LOG_INFO` statement, at
the `pm_off()` statement, or at the final `while(1);`.  There is no
"returned" point: the function is declared `noreturn` and its body has no
return path. -/
inductive ExitPC where
  | at_log
  | at_pm_off
  | at_loop
deriving DecidableEq, Repr

/-- State of a thread running `_exit`: where it is in the body and the
collaborator calls it has performed so far, in order. -/
structure ExitState where
  pc : ExitPC
  actions : List ExitAction
deriving DecidableEq, Repr

/-- A thread entering `_exit(n)` starts at the log statement with no
action performed yet. -/
def _exit_start : ExitState :=
  { pc := ExitPC.at_log, actions := [] }

/-- One statement of `_exit(n)`: the log statement performs
`LOG_INFO` with `n` and moves on, `pm_off()` performs the power-off
request and moves on, and `while(1);` stays in place forever. -/
def _exit_step (n : Int) (s : ExitState) : ExitState :=
  match s.pc with
  | ExitPC.at_log =>
      { pc := ExitPC.at_pm_off, actions := s.actions ++ [ExitAction.log_exit n] }
  | ExitPC.at_pm_off =>
      { pc := ExitPC.at_loop, actions := s.actions ++ [ExitAction.pm_off] }
  | ExitPC.at_loop => s

/-- The state a thread calling `_exit(n)` ends in: spinning at
`while(1);` after having logged `n` and requested power-off, in that
order. -/
def _exit_halted (n : Int) : ExitState :=
  { pc := ExitPC.at_loop, actions := [ExitAction.log_exit n, ExitAction.pm_off] }

/-- Atomic actions of the put/flush/get bodies relevant to the lock
discipline: taking and releasing `picolibc_put_mutex`, touching the
output buffer or its count, and calling the channel driver. -/
inductive Act where
  | lock
  | unlock
  | buf_acc
  | chan_write
  | chan_read
deriving DecidableEq, Repr

/-- Action sequence of `_picolibc_flush` given whether the count is
non-zero at entry: the `if (picolibc_stdout_queued)` test reads the
count; when non-zero, `stdio_write` is called and the count is reset. -/
def _picolibc_flush_acts (queued : Nat) : List Act :=
  [Act.buf_acc] ++
  (if queued ≠ 0 then [Act.chan_write, Act.buf_acc] else [])

/-- Action sequence of `picolibc_put` on a state with count
`queued_pre`: lock; store `c` and increment the count; test the flush
condition (a read of the count); conditionally run `_picolibc_flush`;
unlock. -/
def picolibc_put_acts (queued_pre : Nat) (c : Nat) : List Act :=
  [Act.lock, Act.buf_acc, Act.buf_acc] ++
  (if queued_pre + 1 = PICOLIBC_STDOUT_BUFSIZE ∨ c = 10 then
    _picolibc_flush_acts (queued_pre + 1)
  else []) ++
  [Act.unlock]

/-- Action sequence of `picolibc_flush`: lock; `_picolibc_flush`;
unlock. -/
def picolibc_flush_acts (queued_pre : Nat) : List Act :=
  [Act.lock] ++ _picolibc_flush_acts queued_pre ++ [Act.unlock]

/-- Action sequence of `picolibc_get`: the full `picolibc_flush`
(lock, flush, unlock), then the `stdio_read` call — which the source
places after `picolibc_flush` has returned, hence after the unlock. -/
def picolibc_get_acts (queued_pre : Nat) : List Act :=
  picolibc_flush_acts queued_pre ++ [Act.chan_read]

/-- Change an action makes to the lock-hold depth. -/
def lockDelta : Act → Int
  | Act.lock => 1
  | Act.unlock => -1
  | _ => 0

/-- Actions that interact with the channel driver. -/
def isChanAct : Act → Bool
  | Act.chan_write => true
  | Act.chan_read => true
  | _ => false

/-- Actions that access the output buffer or its count. -/
def isBufAct : Act → Bool
  | Act.buf_acc => true
  | _ => false

/-- Checks, starting from lock depth `d`, that every buffer access and
every channel interaction in the sequence happens while the lock is
held. -/
def guardedFrom : Int → List Act → Bool
  | _, [] => true
  | d, a :: t =>
    (!(isBufAct a || isChanAct a) || decide (0 < d)) &&
    guardedFrom (d + lockDelta a) t

/-- Checks, starting from lock depth `d`, that every buffer access and
every channel WRITE in the sequence happens while the lock is held
(channel reads are exempt). -/
def guardedOutFrom : Int → List Act → Bool
  | _, [] => true
  | d, a :: t =>
    (!(isBufAct a || a == Act.chan_write) || decide (0 < d)) &&
    guardedOutFrom (d + lockDelta a) t

/-- Checks, starting from lock depth `d`, that the depth never goes
negative and is 0 when the operation returns: the mutex is released on
every path and never released without being held. -/
def lockBalancedFrom : Int → List Act → Bool
  | d, [] => decide (d = 0)
  | d, a :: t =>
    decide (0 ≤ d + lockDelta a) && lockBalancedFrom (d + lockDelta a) t

theorem take_set_succ {α : Type} (l : List α) (n : Nat) (a : α) (h : n < l.length) :
    (l.set n a).take (n + 1) = l.take n ++ [a] := by
  induction l generalizing n with
  | nil => simp at h
  | cons b t ih =>
    cases n with
    | zero => simp
    | succ m =>
      simp only [List.set_cons_succ, List.take_succ_cons, List.cons_append,
        List.cons.injEq, true_and]
      exact ih m (by simpa using h)

theorem chanOutT_append (t1 t2 : List Event) :
    chanOutT (t1 ++ t2) = chanOutT t1 ++ chanOutT t2 := by
  simp [chanOutT]

theorem picolibc_put_inv (c : Nat) (s : BufState) (h : Inv s) :
    Inv (picolibc_put c s).1 := by
  obtain ⟨hlen, hq⟩ := h
  by_cases hc : s.picolibc_stdout_queued + 1 = PICOLIBC_STDOUT_BUFSIZE ∨ c = 10
  · simp only [picolibc_put]
    rw [if_pos hc]
    simp [_picolibc_flush, stdio_write, Inv, hlen, PICOLIBC_STDOUT_BUFSIZE]
  · simp only [picolibc_put]
    rw [if_neg hc]
    push_neg at hc
    refine ⟨by simpa using hlen, ?_⟩
    show s.picolibc_stdout_queued + 1 < PICOLIBC_STDOUT_BUFSIZE
    omega

theorem picolibc_put_bytes (c : Nat) (s : BufState) (h : Inv s) :
    chanOut (picolibc_put c s).1 ++ queuedBytes (picolibc_put c s).1
      = chanOut s ++ queuedBytes s ++ [c] := by
  obtain ⟨hlen, hq⟩ := h
  have hset : (s.picolibc_stdout.set s.picolibc_stdout_queued c).take
      (s.picolibc_stdout_queued + 1) = queuedBytes s ++ [c] := by
    have hlt : s.picolibc_stdout_queued < s.picolibc_stdout.length := by
      rw [hlen]; exact hq
    exact take_set_succ _ _ _ hlt
  by_cases hc : s.picolibc_stdout_queued + 1 = PICOLIBC_STDOUT_BUFSIZE ∨ c = 10
  · simp only [picolibc_put]
    rw [if_pos hc]
    simp [_picolibc_flush, stdio_write, chanOut, chanOutT, queuedBytes,
      Event.outBytes, hset]
  · simp only [picolibc_put]
    rw [if_neg hc]
    simp [chanOut, queuedBytes, hset]

theorem runPuts_inv (cs : List Nat) (s : BufState) (h : Inv s) :
    Inv (runPuts cs s) := by
  induction cs generalizing s with
  | nil => exact h
  | cons c cs ih => exact ih _ (picolibc_put_inv c s h)

theorem runPuts_bytes (cs : List Nat) (s : BufState) (h : Inv s) :
    chanOut (runPuts cs s) ++ queuedBytes (runPuts cs s)
      = chanOut s ++ queuedBytes s ++ cs := by
  induction cs generalizing s with
  | nil => simp [runPuts]
  | cons c cs ih =>
    have h2 := picolibc_put_bytes c s h
    rw [runPuts, ih _ (picolibc_put_inv c s h), h2]
    simp

theorem runPuts_quiet (cs : List Nat) (s : BufState)
    (hlen : s.picolibc_stdout.length = PICOLIBC_STDOUT_BUFSIZE)
    (hq : s.picolibc_stdout_queued + cs.length < PICOLIBC_STDOUT_BUFSIZE)
    (hnl : ∀ c ∈ cs, c ≠ 10) :
    (runPuts cs s).trace = s.trace ∧
    (runPuts cs s).picolibc_stdout_queued = s.picolibc_stdout_queued + cs.length ∧
    queuedBytes (runPuts cs s) = queuedBytes s ++ cs ∧
    (runPuts cs s).input = s.input ∧
    (runPuts cs s).picolibc_stdout.length = PICOLIBC_STDOUT_BUFSIZE := by
  induction cs generalizing s with
  | nil => simpa [runPuts] using hlen
  | cons c cs ih =>
    have hc : ¬(s.picolibc_stdout_queued + 1 = PICOLIBC_STDOUT_BUFSIZE ∨ c = 10) := by
      rintro (h1 | h2)
      · simp only [List.length_cons] at hq
        omega
      · exact hnl c (List.mem_cons_self c cs) h2
    have hstep : (picolibc_put c s).1 =
        { s with
            picolibc_stdout := s.picolibc_stdout.set s.picolibc_stdout_queued c,
            picolibc_stdout_queued := s.picolibc_stdout_queued + 1 } := by
      simp only [picolibc_put]
      rw [if_neg hc]
    have hset : queuedBytes (picolibc_put c s).1 = queuedBytes s ++ [c] := by
      rw [hstep]
      show (s.picolibc_stdout.set s.picolibc_stdout_queued c).take
        (s.picolibc_stdout_queued + 1) = _
      exact take_set_succ _ _ _ (by simp only [List.length_cons] at hq; omega)
    have hlen1 : (picolibc_put c s).1.picolibc_stdout.length = PICOLIBC_STDOUT_BUFSIZE := by
      rw [hstep]; simpa using hlen
    have hq1 : (picolibc_put c s).1.picolibc_stdout_queued + cs.length
        < PICOLIBC_STDOUT_BUFSIZE := by
      rw [hstep]
      show s.picolibc_stdout_queued + 1 + cs.length < PICOLIBC_STDOUT_BUFSIZE
      simp only [List.length_cons] at hq
      omega
    have hnl1 : ∀ c2 ∈ cs, c2 ≠ 10 := fun c2 hm => hnl c2 (List.mem_cons_of_mem c hm)
    obtain ⟨t1, t2, t3, t4, t5⟩ := ih (picolibc_put c s).1 hlen1 hq1 hnl1
    refine ⟨?_, ?_, ?_, ?_, ?_⟩
    · rw [runPuts, t1, hstep]
    · rw [runPuts, t2, hstep]
      show s.picolibc_stdout_queued + 1 + cs.length = _
      simp [Nat.add_assoc, Nat.add_comm 1 cs.length]
    · rw [runPuts, t3, hset]
      simp
    · rw [runPuts, t4, hstep]
    · rw [runPuts, t5]

theorem take_one_head? (l : List Nat) : (l.take 1).head? = l.head? := by
  cases l <;> simp

/-- A state with a full-but-one buffer, used to exercise the
capacity-triggered flush on a concrete input. -/
def fullState : BufState :=
  { picolibc_stdout := List.replicate 64 65,
    picolibc_stdout_queued := 63,
    trace := [],
    input := [] }

/-- C1: the queued count of the output buffer stays strictly below the
capacity 64 after every sequence of `put` calls from startup (so `0 ≤
count ≤ capacity` always holds and every store is inside the buffer); no
byte is dropped: the bytes already on the channel followed by the bytes
still queued are exactly the bytes put, in order; and a `put` that brings
the count to exactly the capacity flushes all queued bytes to the channel
and resets the count to 0. -/
theorem put_count_bounded_and_lossless (cs inp : List Nat) (s : BufState) (c : Nat)
    (hs : Inv s) (hfull : s.picolibc_stdout_queued + 1 = PICOLIBC_STDOUT_BUFSIZE) :
    (runPuts cs (initState inp)).picolibc_stdout_queued < PICOLIBC_STDOUT_BUFSIZE ∧
    chanOut (runPuts cs (initState inp)) ++ queuedBytes (runPuts cs (initState inp)) = cs ∧
    (picolibc_put c s).1.picolibc_stdout_queued = 0 ∧
    chanOut (picolibc_put c s).1 = chanOut s ++ queuedBytes s ++ [c] := by
  have hinit : Inv (initState inp) := by
    constructor
    · simp [initState]
    · simp [initState, PICOLIBC_STDOUT_BUFSIZE]
  have hq0 : (picolibc_put c s).1.picolibc_stdout_queued = 0 := by
    simp only [picolibc_put]
    rw [if_pos (Or.inl hfull)]
    simp [_picolibc_flush, stdio_write]
  refine ⟨(runPuts_inv cs _ hinit).2, ?_, hq0, ?_⟩
  · have hb := runPuts_bytes cs (initState inp) hinit
    simpa [chanOut, chanOutT, initState, queuedBytes] using hb
  · have hb := picolibc_put_bytes c s hs
    simpa [queuedBytes, hq0] using hb

/-- Witness for C1 at a concrete put sequence and a concrete 63-full
state. -/
theorem put_count_bounded_and_lossless_witness :
    (Inv fullState ∧ fullState.picolibc_stdout_queued + 1 = PICOLIBC_STDOUT_BUFSIZE) ∧
    ((runPuts [65, 10] (initState [])).picolibc_stdout_queued < PICOLIBC_STDOUT_BUFSIZE ∧
     chanOut (runPuts [65, 10] (initState [])) ++
       queuedBytes (runPuts [65, 10] (initState [])) = [65, 10] ∧
     (picolibc_put 66 fullState).1.picolibc_stdout_queued = 0 ∧
     chanOut (picolibc_put 66 fullState).1
       = chanOut fullState ++ queuedBytes fullState ++ [66]) :=
  ⟨⟨⟨by decide, by decide⟩, by decide⟩,
   put_count_bounded_and_lossless [65, 10] [] fullState 66 ⟨by decide, by decide⟩
     (by decide)⟩

/-- C2: a put sequence shorter than the capacity with no line feed sends
nothing to the channel (the trace stays empty and the bytes stay
queued); a subsequent explicit `picolibc_flush`, or a `picolibc_get`,
hands the channel exactly the queued bytes in put order. -/
theorem quiet_puts_buffer_until_flush_or_get (cs inp : List Nat)
    (hlt : cs.length < PICOLIBC_STDOUT_BUFSIZE) (hnl : (10 : Nat) ∉ cs) :
    (runPuts cs (initState inp)).trace = [] ∧
    queuedBytes (runPuts cs (initState inp)) = cs ∧
    chanOut (picolibc_flush (runPuts cs (initState inp))).1 = cs ∧
    chanOut (picolibc_get (runPuts cs (initState inp))).1 = cs := by
  obtain ⟨t1, t2, t3, t4, t5⟩ := runPuts_quiet cs (initState inp)
    (by simp [initState])
    (by simpa [initState] using hlt)
    (fun c hm he => hnl (he ▸ hm))
  have t3' : queuedBytes (runPuts cs (initState inp)) = cs := by
    simpa [initState, queuedBytes] using t3
  have t1' : (runPuts cs (initState inp)).trace = [] := by
    simpa [initState] using t1
  have hflush : chanOut (picolibc_flush (runPuts cs (initState inp))).1 = cs := by
    by_cases h0 : (runPuts cs (initState inp)).picolibc_stdout_queued ≠ 0
    · simp only [picolibc_flush, _picolibc_flush]
      rw [if_pos h0]
      have : (runPuts cs (initState inp)).picolibc_stdout.take
          (runPuts cs (initState inp)).picolibc_stdout_queued = cs := t3'
      simpa [stdio_write, chanOut, chanOutT, Event.outBytes, t1'] using this
    · push_neg at h0
      have hcs : cs = [] := by
        apply List.eq_nil_of_length_eq_zero
        have := t2
        simp only [initState] at this
        omega
      subst hcs
      simp only [picolibc_flush, _picolibc_flush]
      rw [if_neg (by simpa using h0)]
      simp [chanOut, t1', chanOutT]
  refine ⟨t1', t3', hflush, ?_⟩
  have : chanOut (picolibc_get (runPuts cs (initState inp))).1
      = chanOut (picolibc_flush (runPuts cs (initState inp))).1 := by
    simp [picolibc_get, stdio_read, chanOut, chanOutT, Event.outBytes]
  rw [this, hflush]

/-- Witness for C2 at the two-byte sequence [65, 66]. -/
theorem quiet_puts_buffer_until_flush_or_get_witness :
    (([65, 66] : List Nat).length < PICOLIBC_STDOUT_BUFSIZE ∧ (10 : Nat) ∉ ([65, 66] : List Nat)) ∧
    ((runPuts [65, 66] (initState [7])).trace = [] ∧
     queuedBytes (runPuts [65, 66] (initState [7])) = [65, 66] ∧
     chanOut (picolibc_flush (runPuts [65, 66] (initState [7]))).1 = [65, 66] ∧
     chanOut (picolibc_get (runPuts [65, 66] (initState [7]))).1 = [65, 66]) :=
  ⟨⟨by decide, by decide⟩,
   quiet_puts_buffer_until_flush_or_get [65, 66] [7] (by decide) (by decide)⟩

/-- C3: on any buffer state satisfying the shim's invariant, a `put` of
the line-feed byte 10 appends it and triggers a flush before returning:
the count is reset to 0, the channel-call trace gains exactly one write
whose byte sequence is the previously queued bytes followed by the line
feed — so the line feed is the last byte that flush writes — and `put`
always returns 1 (for every byte, line feed or not). -/
theorem put_newline_always_flushes (s : BufState) (c : Nat) (h : Inv s) :
    (picolibc_put 10 s).1.picolibc_stdout_queued = 0 ∧
    chanOut (picolibc_put 10 s).1 = chanOut s ++ (queuedBytes s ++ [10]) ∧
    (picolibc_put 10 s).1.trace
      = s.trace ++ [Event.ewrite (s.picolibc_stdout.set s.picolibc_stdout_queued 10)
                                 (s.picolibc_stdout_queued + 1)] ∧
    (queuedBytes s ++ [10]).getLast? = some 10 ∧
    (picolibc_put c s).2 = 1 := by
  have hq0 : (picolibc_put 10 s).1.picolibc_stdout_queued = 0 := by
    simp only [picolibc_put]
    rw [if_pos (Or.inr trivial)]
    simp [_picolibc_flush, stdio_write]
  refine ⟨hq0, ?_, ?_, ?_, rfl⟩
  · have hb := picolibc_put_bytes 10 s h
    simpa [queuedBytes, hq0, List.append_assoc] using hb
  · simp only [picolibc_put]
    rw [if_pos (Or.inr trivial)]
    simp [_picolibc_flush, stdio_write]
  · simp

/-- Witness for C3 at the startup state and byte 7. -/
theorem put_newline_always_flushes_witness :
    Inv (initState []) ∧
    ((picolibc_put 10 (initState [])).1.picolibc_stdout_queued = 0 ∧
     chanOut (picolibc_put 10 (initState [])).1
       = chanOut (initState []) ++ (queuedBytes (initState []) ++ [10]) ∧
     (picolibc_put 10 (initState [])).1.trace
       = (initState []).trace ++
         [Event.ewrite ((initState []).picolibc_stdout.set
            (initState []).picolibc_stdout_queued 10)
          ((initState []).picolibc_stdout_queued + 1)] ∧
     (queuedBytes (initState []) ++ [10]).getLast? = some 10 ∧
     (picolibc_put 7 (initState [])).2 = 1) :=
  ⟨⟨by decide, by decide⟩,
   put_newline_always_flushes (initState []) 7 ⟨by decide, by decide⟩⟩

/-- C4: on every buffer state, `picolibc_get` first runs the flush (a
no-op write-wise when the buffer is empty, as the trace shows), and only
after it issues the one-byte channel read; it consumes exactly one input
byte and returns it. -/
theorem get_flushes_then_reads_one_byte (s : BufState) :
    (picolibc_get s).1.picolibc_stdout_queued = 0 ∧
    (picolibc_get s).1.trace
      = s.trace ++
        (if s.picolibc_stdout_queued ≠ 0 then
          [Event.ewrite s.picolibc_stdout s.picolibc_stdout_queued]
        else []) ++
        [Event.eread 1] ∧
    (picolibc_get s).2 = s.input.headD 0 ∧
    (picolibc_get s).1.input = s.input.drop 1 := by
  by_cases h0 : s.picolibc_stdout_queued ≠ 0
  · simp only [picolibc_get, picolibc_flush, _picolibc_flush]
    rw [if_pos h0, if_pos h0]
    simp [stdio_write, stdio_read, take_one_head?]
  · have h0' : s.picolibc_stdout_queued = 0 := by simpa using h0
    simp only [picolibc_get, picolibc_flush, _picolibc_flush]
    rw [if_neg h0, if_neg h0]
    simp [stdio_read, take_one_head?, h0']

/-- C5: `_exit(n)` first logs `n`, then requests power-off, and never
returns: two steps from entry reach the halted state whose performed
actions are exactly the log of `n` followed by the power-off request,
and every further number of steps leaves that state unchanged — the
thread spins at `while(1);` and executes no further code. -/
theorem exit_logs_powers_off_never_returns (n : Int) (k : Nat) :
    _exit_step n (_exit_step n _exit_start) = _exit_halted n ∧
    (_exit_step n)^[k] (_exit_halted n) = _exit_halted n ∧
    (_exit_halted n).actions = [ExitAction.log_exit n, ExitAction.pm_off] := by
  refine ⟨rfl, ?_, rfl⟩
  induction k with
  | zero => rfl
  | succ m ih =>
    rw [Function.iterate_succ_apply, show _exit_step n (_exit_halted n) = _exit_halted n
      from rfl, ih]

/-- C6: `write(fd, data, count)` is exactly `stdio_write(data, count)`:
the file descriptor is ignored (any two descriptors give the same call),
the data and count are forwarded unchanged, and the channel driver's
result is returned as-is. -/
theorem write_ignores_fd_and_forwards (fd fd2 : Int) (data : List Nat) (count : Nat)
    (s : BufState) :
    write fd data count s = stdio_write data count s ∧
    write fd data count s = write fd2 data count s ∧
    (write fd data count s).2 = (stdio_write data count s).2 :=
  ⟨rfl, rfl, rfl⟩

/-- C7: the unsupported entry points fail immediately with their fixed
codes for every input: `close` returns -1 with `ENODEV`, `kill` returns
-1 with `ESRCH`, `times` returns -1 with `ENOSYS`. -/
theorem unsupported_calls_fail_with_fixed_codes (fd pid sig : Int) (ptms : Tms) :
    close fd = (-1, Errno.ENODEV) ∧
    kill pid sig = (-1, Errno.ESRCH) ∧
    (times ptms).1 = -1 ∧ (times ptms).2.1 = Errno.ENOSYS :=
  ⟨rfl, rfl, rfl, rfl⟩

/-- C8: the failing `times(ptms)` call leaves the record at `ptms`
exactly as it was. -/
theorem times_leaves_record_untouched (ptms : Tms) :
    (times ptms).2.2 = ptms :=
  rfl

/-- C10: the bulk `write` entry point leaves the byte-level output
buffer and its queued count unchanged, and the only channel call it
issues is the one bulk write of its own data — previously queued bytes
stay queued and are not emitted before or by the bulk write. -/
theorem write_leaves_byte_buffer_alone (fd : Int) (data : List Nat) (count : Nat)
    (s : BufState) :
    (write fd data count s).1.picolibc_stdout = s.picolibc_stdout ∧
    (write fd data count s).1.picolibc_stdout_queued = s.picolibc_stdout_queued ∧
    queuedBytes (write fd data count s).1 = queuedBytes s ∧
    (write fd data count s).1.trace = s.trace ++ [Event.ewrite data count] :=
  ⟨rfl, rfl, rfl, rfl⟩

theorem flush_acts_cases (q : Nat) :
    _picolibc_flush_acts q = [Act.buf_acc] ∨
    _picolibc_flush_acts q = [Act.buf_acc, Act.chan_write, Act.buf_acc] := by
  by_cases h : q = 0
  · left; simp [_picolibc_flush_acts, h]
  · right; simp [_picolibc_flush_acts, h]

theorem put_acts_cases (q c : Nat) :
    picolibc_put_acts q c = [Act.lock, Act.buf_acc, Act.buf_acc, Act.unlock] ∨
    picolibc_put_acts q c = [Act.lock, Act.buf_acc, Act.buf_acc, Act.buf_acc,
      Act.chan_write, Act.buf_acc, Act.unlock] := by
  by_cases h : q + 1 = PICOLIBC_STDOUT_BUFSIZE ∨ c = 10
  · right
    simp only [picolibc_put_acts]
    rw [if_pos h]
    simp [_picolibc_flush_acts]
  · left
    simp only [picolibc_put_acts]
    rw [if_neg h]
    rfl

theorem flush_op_acts_cases (q : Nat) :
    picolibc_flush_acts q = [Act.lock, Act.buf_acc, Act.unlock] ∨
    picolibc_flush_acts q
      = [Act.lock, Act.buf_acc, Act.chan_write, Act.buf_acc, Act.unlock] := by
  rcases flush_acts_cases q with h | h
  · left; simp [picolibc_flush_acts, h]
  · right; simp [picolibc_flush_acts, h]

/-- C9 counterexample: the claim requires every channel interaction of
`picolibc_get` to happen while the mutex is held, but on an empty buffer
(queued count 0) the `stdio_read` of `picolibc_get` executes at lock
depth 0 — after `picolibc_flush` has already released the mutex. -/
theorem get_channel_read_outside_mutex :
    guardedFrom 0 (picolibc_get_acts 0) = false := by
  decide

/-- C9 amended: every access to the output buffer and its queued count,
and every channel WRITE, performed by `picolibc_put`, `picolibc_flush`
and `picolibc_get`, happens while the mutex is held; the mutex is
released before returning on every path of all three operations; `put`
and `flush` perform all their actions under the mutex; but
`picolibc_get` issues its one-byte channel read after the unlock. -/
theorem mutex_guards_buffer_and_channel_writes (q c : Nat) :
    lockBalancedFrom 0 (picolibc_put_acts q c) = true ∧
    lockBalancedFrom 0 (picolibc_flush_acts q) = true ∧
    lockBalancedFrom 0 (picolibc_get_acts q) = true ∧
    guardedFrom 0 (picolibc_put_acts q c) = true ∧
    guardedFrom 0 (picolibc_flush_acts q) = true ∧
    guardedOutFrom 0 (picolibc_get_acts q) = true ∧
    picolibc_get_acts q = picolibc_flush_acts q ++ [Act.chan_read] := by
  rcases put_acts_cases q c with hp | hp <;>
    rcases flush_op_acts_cases q with hf | hf <;>
    rw [show picolibc_get_acts q = picolibc_flush_acts q ++ [Act.chan_read] from rfl,
      hp, hf] <;>
    decide

end PicolibcSyscalls
